import Mathlib

/-!
Verification of warp's response-compression filter
(`src/filters/compression.rs`) against its specification.

The embedding models:
  * header values as byte lists (`Bytes`), with the `http` crate's byte
    validity predicates (`HeaderValue::from_bytes` / `HeaderValue::to_str`);
  * the header map as an association list with `http::HeaderMap`'s
    `remove` (drops every value of the key, returns the first),
    `append` and per-key value listing;
  * `ContentCoding` from the `headers` crate with its wire tokens
    (`gzip`, `deflate`, `br`, ...);
  * `create_encoding_header`, the three coding transforms `gzip`,
    `deflate`, `brotli`, and the negotiation function `auto`;
  * the byte-stream adapter `CompressableBody::poll_next` and the
    middleware future `WithCompressionFuture::poll`.
-/

namespace Warp.Compression

/-- Raw bytes (each entry intended in 0..255): header values, body chunks. -/
abbrev Bytes := List Nat

/-- ASCII bytes of a string literal (all strings used here are ASCII). -/
def strBytes (s : String) : Bytes :=
  s.toList.map Char.toNat

/-- The `http` crate's `CONTENT_ENCODING` header name. -/
def contentEncoding : String := "content-encoding"

/-- The `http` crate's `CONTENT_LENGTH` header name. -/
def contentLength : String := "content-length"

/-- A byte accepted by `http::HeaderValue::from_bytes`:
`b >= 32 && b != 127 || b == 9` (horizontal tab). -/
def validValueByte (b : Nat) : Bool :=
  (b == 9) || (decide (32 ≤ b) && decide (b ≠ 127))

/-- A byte accepted by `http::HeaderValue::to_str` (visible ASCII or tab):
`b >= 32 && b < 127 || b == 9`. -/
def visibleAsciiByte (b : Nat) : Bool :=
  (b == 9) || (decide (32 ≤ b) && decide (b < 127))

/-- A header value: its raw bytes. -/
abbrev HeaderValue := Bytes

/-- `HeaderValue::try_from(&str)`: succeeds iff every byte is valid. -/
def headerValueTryFrom (s : Bytes) : Option HeaderValue :=
  if s.all validValueByte then some s else none

/-- `HeaderValue::to_str`: succeeds iff every byte is visible ASCII or tab,
returning the same bytes as text. -/
def headerValueToStr (v : HeaderValue) : Option Bytes :=
  if v.all visibleAsciiByte then some v else none

/-- `headers::ContentCoding`. -/
inductive ContentCoding where
  | GZIP
  | DEFLATE
  | BROTLI
  | COMPRESS
  | IDENTITY
deriving DecidableEq

/-- `ContentCoding::to_static` / `Display`: the coding's wire token. -/
def ContentCoding.toStaticStr : ContentCoding → String
  | .GZIP => "gzip"
  | .DEFLATE => "deflate"
  | .BROTLI => "br"
  | .COMPRESS => "compress"
  | .IDENTITY => "identity"

/-- The coding's wire token as bytes; also
`HeaderValue::from(ContentCoding)` (`coding.into()`). -/
def ContentCoding.token (c : ContentCoding) : Bytes :=
  strBytes c.toStaticStr

/-- The bytes of `", "` used by `format("\x7b\x7d, \x7b\x7d", ..)` in
`create_encoding_header`. -/
def commaSpace : Bytes := [44, 32]

/-- `create_encoding_header`: given the optional existing
`Content-Encoding` value, appends to the existing or creates a new one.
Mirrors the source: `to_str` on the existing value, then
`HeaderValue::try_from(format(..))` with `unwrap_or_else(coding.into())`. -/
def create_encoding_header (existing : Option HeaderValue) (coding : ContentCoding) :
    HeaderValue :=
  match existing with
  | some val =>
    match headerValueToStr val with
    | some strVal =>
      (headerValueTryFrom (coding.token ++ commaSpace ++ strVal)).getD coding.token
    | none => coding.token
  | none => coding.token

/-- `http::HeaderMap` restricted to what the filter uses: an association
list of name-value pairs; per-key value order is insertion order. -/
abbrev HeaderMap := List (String × HeaderValue)

/-- `HeaderMap::remove`: removes every value associated with the name and
returns the first one (extra values are dropped), paired with the
remaining map. -/
def HeaderMap.remove (m : HeaderMap) (n : String) : Option HeaderValue × HeaderMap :=
  ((m.find? fun p => p.1 == n).map Prod.snd, m.filter fun p => !(p.1 == n))

/-- `HeaderMap::append`: adds a value for the name, keeping existing ones. -/
def HeaderMap.append (m : HeaderMap) (n : String) (v : HeaderValue) : HeaderMap :=
  m ++ [(n, v)]

/-- All values associated with a name, in order (`HeaderMap::get_all`). -/
def HeaderMap.getAll (m : HeaderMap) (n : String) : List HeaderValue :=
  (m.filter fun p => p.1 == n).map Prod.snd

/-- `http::response::Parts`: the response head. -/
structure Parts where
  status : Nat
  version : Nat
  headers : HeaderMap
deriving DecidableEq

deriving instance DecidableEq for Except

/-- A response body, tracking how the filter built it: a raw chunk
sequence (`hyper::Body`), `Body::wrap_stream` over the adapted stream
(pass-through), or one of the three streaming encoders wrapped by
`Body::wrap_stream`. The encoders' output bytes are external to this
repository and left abstract. -/
inductive BodyStream where
  | chunks (items : List (Except Nat Bytes))
  | wrapPassthrough (inner : BodyStream)
  | gzipEncoder (inner : BodyStream)
  | deflateEncoder (inner : BodyStream)
  | brotliEncoder (inner : BodyStream)
deriving DecidableEq

/-- The body's byte chunks where the construction makes them knowable:
raw bodies and pass-through wrappers; `none` under an external encoder. -/
def BodyStream.bodyBytes : BodyStream → Option (List Bytes)
  | .chunks items => some (items.filterMap fun r => r.toOption)
  | .wrapPassthrough s => s.bodyBytes
  | .gzipEncoder _ => none
  | .deflateEncoder _ => none
  | .brotliEncoder _ => none

/-- `crate::reply::Response`: head plus body. -/
structure Response where
  parts : Parts
  body : BodyStream
deriving DecidableEq

/-- `headers::AcceptEncoding`, as the spec's data model describes the
parsed header: an ordered list of coding-quality pairs, quality in
thousandths (`q=0.5` is `500`). -/
structure AcceptEncoding where
  entries : List (ContentCoding × Nat)
deriving DecidableEq

/-- Modelled from the spec: the `headers` crate's quality-value ranking
(`AcceptEncoding::prefered_encoding`) is external to this repository; the
spec delegates "preference computation (quality-value ranking)" to it and
says the most preferred supported coding wins. This picks the entry of
maximal quality (first such entry on ties) and `none` on an empty list. -/
def pickPrefered : List (ContentCoding × Nat) → Option (ContentCoding × Nat)
  | [] => none
  | e :: rest =>
    match pickPrefered rest with
    | none => some e
    | some b => if b.2 > e.2 then some b else some e

/-- Modelled from the spec: `AcceptEncoding::prefered_encoding`, the
already-ranked preferred coding consumed by `auto`. -/
def AcceptEncoding.prefered_encoding (h : AcceptEncoding) : Option ContentCoding :=
  (pickPrefered h.entries).map Prod.fst

/-- `CompressionProps`: adapted body, response head, parsed
`Accept-Encoding`. -/
structure CompressionProps where
  body : BodyStream
  head : Parts
  accept_enc : Option AcceptEncoding
deriving DecidableEq

/-- The `gzip()` compression function: wrap the body in a gzip encoder,
merge `gzip` into `Content-Encoding`, then remove `Content-Length`. -/
def gzipFunc (props : CompressionProps) : Response :=
  let body := BodyStream.gzipEncoder props.body
  let r := props.head.headers.remove contentEncoding
  let header := create_encoding_header r.1 ContentCoding.GZIP
  let hs := (r.2.append contentEncoding header).remove contentLength
  { parts := { props.head with headers := hs.2 }, body := body }

/-- The `deflate()` compression function: same shape as `gzip()` with the
deflate encoder and token. -/
def deflateFunc (props : CompressionProps) : Response :=
  let body := BodyStream.deflateEncoder props.body
  let r := props.head.headers.remove contentEncoding
  let header := create_encoding_header r.1 ContentCoding.DEFLATE
  let hs := (r.2.append contentEncoding header).remove contentLength
  { parts := { props.head with headers := hs.2 }, body := body }

/-- The `brotli()` compression function: removes `Content-Length` first,
then merges `br` into `Content-Encoding` (the source orders these two
steps differently from `gzip`/`deflate`). -/
def brotliFunc (props : CompressionProps) : Response :=
  let body := BodyStream.brotliEncoder props.body
  let r0 := props.head.headers.remove contentLength
  let r := r0.2.remove contentEncoding
  let header := create_encoding_header r.1 ContentCoding.BROTLI
  { parts := { props.head with headers := r.2.append contentEncoding header },
    body := body }

/-- The `auto()` compression function: dispatch on the preferred encoding
when one is present; otherwise rebuild the response from the unchanged
head and `Body::wrap_stream(props.body)`. -/
def autoFunc (props : CompressionProps) : Response :=
  match props.accept_enc with
  | some header =>
    match header.prefered_encoding with
    | some ContentCoding.GZIP => gzipFunc props
    | some ContentCoding.DEFLATE => deflateFunc props
    | some ContentCoding.BROTLI => brotliFunc props
    | some _ =>
      { parts := props.head, body := BodyStream.wrapPassthrough props.body }
    | none =>
      { parts := props.head, body := BodyStream.wrapPassthrough props.body }
  | none =>
    { parts := props.head, body := BodyStream.wrapPassthrough props.body }

/-- `std::task::Poll`. -/
inductive Poll (α : Type) where
  | pending
  | ready (a : α)
deriving DecidableEq

/-- `std::io::ErrorKind`, restricted to variants relevant here. -/
inductive IOErrorKind where
  | InvalidData
  | NotFound
  | UnexpectedEof
deriving DecidableEq

/-- `CompressableBody::poll_next`: forwards the upstream body's poll
outcome, mapping every upstream error (its detail is a `Nat` here,
standing for an arbitrary `hyper::Error`) to
`Error::from(ErrorKind::InvalidData)` and leaving chunks, end-of-stream
and pending untouched. -/
def compressableBodyPollNext (upstream : Poll (Option (Except Nat Bytes))) :
    Poll (Option (Except IOErrorKind Bytes)) :=
  match upstream with
  | .pending => .pending
  | .ready e =>
    .ready (e.map fun res =>
      match res with
      | .ok b => .ok b
      | .error _ => .error IOErrorKind.InvalidData)

/-- A rejection from the inner filter (`F::Error`), left abstract. -/
abbrev RejectErr := Nat

/-- `WithCompressionFuture::poll`: forwards `Pending`; on an inner `Ok`
reply, splits it into parts, builds `CompressionProps` from the adapted
body and the route's `Accept-Encoding`, and applies the configured
compression function; on an inner `Err`, forwards the rejection. -/
def withCompressionFuturePoll (func : CompressionProps → Response)
    (routeAcceptEnc : Option AcceptEncoding)
    (innerPoll : Poll (Except RejectErr Response)) :
    Poll (Except RejectErr Response) :=
  match innerPoll with
  | .pending => .pending
  | .ready (.ok reply) =>
    .ready (.ok (func
      { body := reply.body, head := reply.parts, accept_enc := routeAcceptEnc }))
  | .ready (.error reject) => .ready (.error reject)

/-- The Header Merge Utility as the spec's section 4.1 words it: if an
existing value is present and is valid textual content, produce
`"<new-coding>, <existing-value>"`; if construction of that combined value
fails validation, fall back to a value containing only the new coding; if
no existing value, produce a value containing only the new coding. -/
def mergeHeaderSpec (existing : Option HeaderValue) (coding : ContentCoding) :
    HeaderValue :=
  match existing.bind headerValueToStr with
  | some textual =>
    match headerValueTryFrom (coding.token ++ commaSpace ++ textual) with
    | some combined => combined
    | none => coding.token
  | none => coding.token

/-- The preferred coding `auto` obtains from the props: the parsed
`Accept-Encoding`, when present, ranked by the collaborator. -/
def preferredOf (props : CompressionProps) : Option ContentCoding :=
  props.accept_enc.bind AcceptEncoding.prefered_encoding

/-- The three coding transforms paired with the token each merges into
`Content-Encoding`. -/
def codingTransforms : List ((CompressionProps → Response) × Bytes) :=
  [(gzipFunc, ContentCoding.GZIP.token),
   (deflateFunc, ContentCoding.DEFLATE.token),
   (brotliFunc, ContentCoding.BROTLI.token)]

/-- A response whose head already carries two separate
`Content-Encoding` entries (`deflate` and `br`). -/
def twoEncodingsProps : CompressionProps where
  body := .chunks []
  head := ⟨200, 11,
    [(contentEncoding, strBytes "deflate"), (contentEncoding, strBytes "br")]⟩
  accept_enc := none

/-- A response with no `Accept-Encoding` preference and an unrelated
header, for exercising the pass-through path. -/
def passthroughProps : CompressionProps where
  body := .chunks [.ok [104, 105], .error 7, .ok [33]]
  head := ⟨200, 11, [("x-request-id", [97, 98, 99]), (contentLength, [50])]⟩
  accept_enc := none

/-- A response head carrying a `Content-Length` but no
`Content-Encoding`. -/
def emptyCeProps : CompressionProps where
  body := .chunks [.ok [119]]
  head := ⟨200, 11, [(contentLength, [52, 50])]⟩
  accept_enc := none

/-- The props the next middleware layer would assemble from the output
of `gzip()` applied to `emptyCeProps`: same adapted body and head,
unchanged negotiated preference. -/
def chainedProps : CompressionProps where
  body := (gzipFunc emptyCeProps).body
  head := (gzipFunc emptyCeProps).parts
  accept_enc := emptyCeProps.accept_enc

/-- The parsed representation of `Accept-Encoding: gzip;q=0.5, br;q=1.0`:
gzip at quality 500/1000, brotli at quality 1000/1000. -/
def acceptGzipHalfBrFull : AcceptEncoding :=
  ⟨[(ContentCoding.GZIP, 500), (ContentCoding.BROTLI, 1000)]⟩

lemma getAll_nil (n : String) : HeaderMap.getAll [] n = [] := rfl

lemma getAll_cons (p : String × HeaderValue) (m : HeaderMap) (n : String) :
    HeaderMap.getAll (p :: m) n
      = if p.1 = n then p.2 :: m.getAll n else m.getAll n := by
  by_cases h : p.1 = n <;>
    simp [HeaderMap.getAll, List.filter_cons, h]

lemma remove_fst_eq_head_getAll (m : HeaderMap) (n : String) :
    (m.remove n).1 = (m.getAll n).head? := by
  induction m with
  | nil => rfl
  | cons hd t ih =>
    by_cases h : hd.1 = n
    · simp [HeaderMap.remove, List.find?_cons, getAll_cons, h]
    · simpa [HeaderMap.remove, List.find?_cons, getAll_cons, h] using ih

lemma remove_snd_getAll_self (m : HeaderMap) (n : String) :
    HeaderMap.getAll (m.remove n).2 n = [] := by
  induction m with
  | nil => rfl
  | cons hd t ih =>
    by_cases h : hd.1 = n
    · simpa [HeaderMap.remove, List.filter_cons, h] using ih
    · simpa [HeaderMap.remove, List.filter_cons, getAll_cons, h] using ih

lemma remove_snd_getAll_ne (m : HeaderMap) (n n' : String) (h : n ≠ n') :
    HeaderMap.getAll (m.remove n').2 n = m.getAll n := by
  have h' : n' ≠ n := Ne.symm h
  induction m with
  | nil => rfl
  | cons hd t ih =>
    by_cases hh : hd.1 = n'
    · simpa [HeaderMap.remove, List.filter_cons, hh, getAll_cons, h, h'] using ih
    · by_cases hn : hd.1 = n
      · simpa [HeaderMap.remove, List.filter_cons, hh, getAll_cons, hn, h, h'] using ih
      · simpa [HeaderMap.remove, List.filter_cons, hh, getAll_cons, hn] using ih

lemma append_getAll_self (m : HeaderMap) (n : String) (v : HeaderValue) :
    HeaderMap.getAll (m.append n v) n = m.getAll n ++ [v] := by
  induction m with
  | nil => simp [HeaderMap.append, HeaderMap.getAll]
  | cons hd t ih =>
    by_cases h : hd.1 = n
    · simpa [HeaderMap.append, getAll_cons, h] using ih
    · simpa [HeaderMap.append, getAll_cons, h] using ih

lemma append_getAll_ne (m : HeaderMap) (n n' : String) (v : HeaderValue)
    (h : n ≠ n') :
    HeaderMap.getAll (m.append n' v) n = m.getAll n := by
  have h' : n' ≠ n := Ne.symm h
  induction m with
  | nil => simp [HeaderMap.append, HeaderMap.getAll, h']
  | cons hd t ih =>
    by_cases hn : hd.1 = n
    · simpa [HeaderMap.append, getAll_cons, hn] using ih
    · simpa [HeaderMap.append, getAll_cons, hn] using ih

lemma visible_valid (b : Nat) (h : visibleAsciiByte b = true) :
    validValueByte b = true := by
  simp only [visibleAsciiByte, validValueByte, Bool.or_eq_true, Bool.and_eq_true,
    beq_iff_eq, decide_eq_true_eq] at h ⊢
  omega

lemma all_visible_valid (v : Bytes) (h : v.all visibleAsciiByte = true) :
    v.all validValueByte = true := by
  simp only [List.all_eq_true] at h ⊢
  exact fun b hb => visible_valid b (h b hb)

lemma token_visible (c : ContentCoding) :
    (c.token).all visibleAsciiByte = true := by
  cases c <;> decide

lemma create_none (c : ContentCoding) :
    create_encoding_header none c = c.token := rfl

lemma create_some_visible (v : Bytes) (c : ContentCoding)
    (h : v.all visibleAsciiByte = true) :
    create_encoding_header (some v) c = c.token ++ commaSpace ++ v := by
  have hts : headerValueToStr v = some v := by simp [headerValueToStr, h]
  have hvalid : (c.token ++ commaSpace ++ v).all validValueByte = true := by
    simp only [List.all_append, Bool.and_eq_true]
    exact ⟨⟨all_visible_valid _ (token_visible c), by decide⟩, all_visible_valid v h⟩
  simp only [create_encoding_header, hts, headerValueTryFrom]
  rw [hvalid]
  simp

lemma create_some_invisible (v : Bytes) (c : ContentCoding)
    (h : v.all visibleAsciiByte = false) :
    create_encoding_header (some v) c = c.token := by
  have hts : headerValueToStr v = none := by simp [headerValueToStr, h]
  simp [create_encoding_header, hts]

lemma create_shape (existing : Option HeaderValue) (c : ContentCoding) :
    create_encoding_header existing c = c.token ∨
      ∃ rest, create_encoding_header existing c = c.token ++ commaSpace ++ rest := by
  cases existing with
  | none => exact Or.inl rfl
  | some v =>
    cases hv : v.all visibleAsciiByte with
    | false => exact Or.inl (create_some_invisible v c hv)
    | true => exact Or.inr ⟨v, create_some_visible v c hv⟩

lemma gzipFunc_ce (props : CompressionProps) :
    (gzipFunc props).parts.headers.getAll contentEncoding
      = [create_encoding_header
          (props.head.headers.getAll contentEncoding).head? ContentCoding.GZIP] := by
  simp only [gzipFunc]
  rw [remove_snd_getAll_ne _ _ _ (by decide), append_getAll_self,
    remove_snd_getAll_self, remove_fst_eq_head_getAll]
  rfl

lemma gzipFunc_cl (props : CompressionProps) :
    (gzipFunc props).parts.headers.getAll contentLength = [] := by
  simp only [gzipFunc]
  exact remove_snd_getAll_self _ _

lemma gzipFunc_frame (props : CompressionProps) (n : String)
    (h1 : n ≠ contentEncoding) (h2 : n ≠ contentLength) :
    (gzipFunc props).parts.headers.getAll n = props.head.headers.getAll n := by
  simp only [gzipFunc]
  rw [remove_snd_getAll_ne _ _ _ h2, append_getAll_ne _ _ _ _ h1,
    remove_snd_getAll_ne _ _ _ h1]

lemma deflateFunc_ce (props : CompressionProps) :
    (deflateFunc props).parts.headers.getAll contentEncoding
      = [create_encoding_header
          (props.head.headers.getAll contentEncoding).head? ContentCoding.DEFLATE] := by
  simp only [deflateFunc]
  rw [remove_snd_getAll_ne _ _ _ (by decide), append_getAll_self,
    remove_snd_getAll_self, remove_fst_eq_head_getAll]
  rfl

lemma deflateFunc_cl (props : CompressionProps) :
    (deflateFunc props).parts.headers.getAll contentLength = [] := by
  simp only [deflateFunc]
  exact remove_snd_getAll_self _ _

lemma deflateFunc_frame (props : CompressionProps) (n : String)
    (h1 : n ≠ contentEncoding) (h2 : n ≠ contentLength) :
    (deflateFunc props).parts.headers.getAll n = props.head.headers.getAll n := by
  simp only [deflateFunc]
  rw [remove_snd_getAll_ne _ _ _ h2, append_getAll_ne _ _ _ _ h1,
    remove_snd_getAll_ne _ _ _ h1]

lemma brotliFunc_ce (props : CompressionProps) :
    (brotliFunc props).parts.headers.getAll contentEncoding
      = [create_encoding_header
          (props.head.headers.getAll contentEncoding).head? ContentCoding.BROTLI] := by
  simp only [brotliFunc]
  rw [append_getAll_self, remove_snd_getAll_self, remove_fst_eq_head_getAll,
    remove_snd_getAll_ne _ _ _ (by decide)]
  rfl

lemma brotliFunc_cl (props : CompressionProps) :
    (brotliFunc props).parts.headers.getAll contentLength = [] := by
  simp only [brotliFunc]
  rw [append_getAll_ne _ _ _ _ (by decide), remove_snd_getAll_ne _ _ _ (by decide),
    remove_snd_getAll_self]

lemma brotliFunc_frame (props : CompressionProps) (n : String)
    (h1 : n ≠ contentEncoding) (h2 : n ≠ contentLength) :
    (brotliFunc props).parts.headers.getAll n = props.head.headers.getAll n := by
  simp only [brotliFunc]
  rw [append_getAll_ne _ _ _ _ h1, remove_snd_getAll_ne _ _ _ h1,
    remove_snd_getAll_ne _ _ _ h2]

lemma mem_codingTransforms (f : CompressionProps → Response) (tok : Bytes)
    (hm : (f, tok) ∈ codingTransforms) :
    ∃ c : ContentCoding, tok = c.token ∧
      ∀ props, (f props).parts.headers.getAll contentEncoding
        = [create_encoding_header
            (props.head.headers.getAll contentEncoding).head? c] := by
  simp only [codingTransforms, List.mem_cons, List.not_mem_nil, or_false,
    Prod.mk.injEq] at hm
  rcases hm with ⟨hf, ht⟩ | ⟨hf, ht⟩ | ⟨hf, ht⟩ <;> subst hf <;> subst ht
  · exact ⟨ContentCoding.GZIP, rfl, gzipFunc_ce⟩
  · exact ⟨ContentCoding.DEFLATE, rfl, deflateFunc_ce⟩
  · exact ⟨ContentCoding.BROTLI, rfl, brotliFunc_ce⟩

/-- C1: for every coding C in gzip, deflate, brotli and every input
`CompressionProps`, applying C's transform yields a response whose head
has no `Content-Length` header and whose single `Content-Encoding` value
carries C's token (`gzip`/`deflate`/`br`) as the left-most entry. -/
theorem claim_c1 (props : CompressionProps) :
    ((gzipFunc props).parts.headers.getAll contentLength = [] ∧
      ∃ v, (gzipFunc props).parts.headers.getAll contentEncoding = [v] ∧
        (v = ContentCoding.GZIP.token ∨
          ∃ rest, v = ContentCoding.GZIP.token ++ commaSpace ++ rest)) ∧
    ((deflateFunc props).parts.headers.getAll contentLength = [] ∧
      ∃ v, (deflateFunc props).parts.headers.getAll contentEncoding = [v] ∧
        (v = ContentCoding.DEFLATE.token ∨
          ∃ rest, v = ContentCoding.DEFLATE.token ++ commaSpace ++ rest)) ∧
    ((brotliFunc props).parts.headers.getAll contentLength = [] ∧
      ∃ v, (brotliFunc props).parts.headers.getAll contentEncoding = [v] ∧
        (v = ContentCoding.BROTLI.token ∨
          ∃ rest, v = ContentCoding.BROTLI.token ++ commaSpace ++ rest)) :=
  ⟨⟨gzipFunc_cl props, _, gzipFunc_ce props, create_shape _ _⟩,
   ⟨deflateFunc_cl props, _, deflateFunc_ce props, create_shape _ _⟩,
   ⟨brotliFunc_cl props, _, brotliFunc_ce props, create_shape _ _⟩⟩

/-- C2: when the `Accept-Encoding` preference is absent, yields no
preferred coding, or prefers a coding other than gzip, deflate and
brotli, `auto()`'s compression function leaves the head (with every
original header) unchanged and re-emits the body's bytes untouched. -/
theorem claim_c2 (props : CompressionProps)
    (hg : preferredOf props ≠ some ContentCoding.GZIP)
    (hd : preferredOf props ≠ some ContentCoding.DEFLATE)
    (hb : preferredOf props ≠ some ContentCoding.BROTLI) :
    (autoFunc props).parts = props.head ∧
    (autoFunc props).body = BodyStream.wrapPassthrough props.body ∧
    BodyStream.bodyBytes (autoFunc props).body = BodyStream.bodyBytes props.body := by
  cases hae : props.accept_enc with
  | none => simp [autoFunc, hae, BodyStream.bodyBytes]
  | some header =>
    cases hpe : header.prefered_encoding with
    | none => simp [autoFunc, hae, hpe, BodyStream.bodyBytes]
    | some c =>
      cases c with
      | GZIP => exact absurd (by simp [preferredOf, hae, hpe]) hg
      | DEFLATE => exact absurd (by simp [preferredOf, hae, hpe]) hd
      | BROTLI => exact absurd (by simp [preferredOf, hae, hpe]) hb
      | COMPRESS => simp [autoFunc, hae, hpe, BodyStream.bodyBytes]
      | IDENTITY => simp [autoFunc, hae, hpe, BodyStream.bodyBytes]

/-- Witness for C2 at a concrete pass-through input. -/
theorem claim_c2_witness :
    preferredOf passthroughProps ≠ some ContentCoding.GZIP ∧
    preferredOf passthroughProps ≠ some ContentCoding.DEFLATE ∧
    preferredOf passthroughProps ≠ some ContentCoding.BROTLI ∧
    ((autoFunc passthroughProps).parts = passthroughProps.head ∧
      (autoFunc passthroughProps).body
        = BodyStream.wrapPassthrough passthroughProps.body ∧
      BodyStream.bodyBytes (autoFunc passthroughProps).body
        = BodyStream.bodyBytes passthroughProps.body) :=
  ⟨by decide, by decide, by decide,
    claim_c2 passthroughProps (by decide) (by decide) (by decide)⟩

/-- C6: the byte-stream adapter passes a successful chunk through
unchanged, maps every upstream error regardless of its detail to the
single I/O error of kind `InvalidData`, signals end-of-stream exactly
when the upstream does, and stays pending exactly when the upstream
does. -/
theorem claim_c6 (b : Bytes) (e : Nat) :
    compressableBodyPollNext (.ready (some (.ok b))) = .ready (some (.ok b)) ∧
    compressableBodyPollNext (.ready (some (.error e)))
      = .ready (some (.error IOErrorKind.InvalidData)) ∧
    compressableBodyPollNext (.ready none) = .ready none ∧
    compressableBodyPollNext .pending = .pending :=
  ⟨rfl, rfl, rfl, rfl⟩

/-- C7: when the inner filter's future completes with an error, the
middleware future completes with that identical error, and the outcome
is the same for every configured compression function, so the
compression function is never invoked. -/
theorem claim_c7 (e : RejectErr) (acc : Option AcceptEncoding)
    (f g : CompressionProps → Response) :
    withCompressionFuturePoll f acc (.ready (.error e)) = .ready (.error e) ∧
    withCompressionFuturePoll f acc (.ready (.error e))
      = withCompressionFuturePoll g acc (.ready (.error e)) :=
  ⟨rfl, rfl⟩

/-- C9: `create_encoding_header` is total and refines the spec's merge
contract, and whenever construction of the combined value fails
validation it falls back to a value containing only the new coding. -/
theorem claim_c9 (existing : Option HeaderValue) (coding : ContentCoding) :
    create_encoding_header existing coding = mergeHeaderSpec existing coding ∧
    (∀ val, existing = some val →
      headerValueTryFrom (coding.token ++ commaSpace ++ val) = none →
      create_encoding_header existing coding = coding.token) := by
  constructor
  · cases existing with
    | none => rfl
    | some v =>
      cases hts : headerValueToStr v with
      | none => simp [create_encoding_header, mergeHeaderSpec, hts]
      | some s =>
        simp only [create_encoding_header, mergeHeaderSpec, hts, Option.some_bind]
        cases headerValueTryFrom (coding.token ++ commaSpace ++ s) <;> rfl
  · rintro val rfl htf
    cases hvv : val.all visibleAsciiByte with
    | false => exact create_some_invisible val coding hvv
    | true =>
      exfalso
      have hvalid : (coding.token ++ commaSpace ++ val).all validValueByte = true := by
        simp only [List.all_append, Bool.and_eq_true]
        exact ⟨⟨all_visible_valid _ (token_visible coding), by decide⟩,
          all_visible_valid val hvv⟩
      rw [headerValueTryFrom, hvalid] at htf
      simp at htf

/-- Witness for C9: a byte 0 in the existing value makes the combined
construction fail, and the merge falls back to the bare `gzip` token. -/
theorem claim_c9_witness :
    headerValueTryFrom (ContentCoding.GZIP.token ++ commaSpace ++ [0]) = none ∧
    create_encoding_header (some [0]) ContentCoding.GZIP = ContentCoding.GZIP.token :=
  ⟨by decide, (claim_c9 (some [0]) ContentCoding.GZIP).2 [0] rfl (by decide)⟩

/-- C3 counterexample: on a head holding two separate `Content-Encoding`
entries (`deflate` then `br`), applying gzip yields `"gzip, deflate"`,
not the claimed prepend onto the comma-join of all previous values
(`"gzip, deflate, br"`): the second entry is lost. -/
theorem claim_c3_counterexample :
    (gzipFunc twoEncodingsProps).parts.headers.getAll contentEncoding
        ≠ [strBytes "gzip, deflate, br"] ∧
    (gzipFunc twoEncodingsProps).parts.headers.getAll contentEncoding
        = [strBytes "gzip, deflate"] := by
  decide

/-- C3 amended: applying any coding's transform keeps only the first
previously present `Content-Encoding` value: when that value is valid
visible-ASCII text, the resulting single value is the new coding
prepended to it, and any further `Content-Encoding` entries are
discarded. -/
theorem claim_c3_amended (props : CompressionProps) (v : HeaderValue)
    (rest : List HeaderValue)
    (hce : props.head.headers.getAll contentEncoding = v :: rest)
    (hv : v.all visibleAsciiByte = true) :
    (gzipFunc props).parts.headers.getAll contentEncoding
        = [ContentCoding.GZIP.token ++ commaSpace ++ v] ∧
    (deflateFunc props).parts.headers.getAll contentEncoding
        = [ContentCoding.DEFLATE.token ++ commaSpace ++ v] ∧
    (brotliFunc props).parts.headers.getAll contentEncoding
        = [ContentCoding.BROTLI.token ++ commaSpace ++ v] := by
  refine ⟨?_, ?_, ?_⟩
  · rw [gzipFunc_ce props, hce]
    simp [create_some_visible v _ hv]
  · rw [deflateFunc_ce props, hce]
    simp [create_some_visible v _ hv]
  · rw [brotliFunc_ce props, hce]
    simp [create_some_visible v _ hv]

/-- Witness for the amended C3 at the two-entry head. -/
theorem claim_c3_witness :
    twoEncodingsProps.head.headers.getAll contentEncoding
        = strBytes "deflate" :: [strBytes "br"] ∧
    (strBytes "deflate").all visibleAsciiByte = true ∧
    (gzipFunc twoEncodingsProps).parts.headers.getAll contentEncoding
        = [ContentCoding.GZIP.token ++ commaSpace ++ strBytes "deflate"] :=
  ⟨by decide, by decide,
    (claim_c3_amended twoEncodingsProps (strBytes "deflate") [strBytes "br"]
      (by decide) (by decide)).1⟩

/-- C4: starting from a head with no `Content-Encoding`, applying coding
A's transform and then coding B's transform yields the single value
`"B, A"` (the two tokens comma-joined, most recent first); a single
coding A yields exactly `"A"`. -/
theorem claim_c4 (fa fb : CompressionProps → Response) (ta tb : Bytes)
    (ha : (fa, ta) ∈ codingTransforms) (hb : (fb, tb) ∈ codingTransforms)
    (props : CompressionProps)
    (hce : props.head.headers.getAll contentEncoding = []) :
    (fa props).parts.headers.getAll contentEncoding = [ta] ∧
    (fb { body := (fa props).body, head := (fa props).parts,
          accept_enc := props.accept_enc }).parts.headers.getAll contentEncoding
      = [tb ++ commaSpace ++ ta] := by
  obtain ⟨ca, rfl, hfa⟩ := mem_codingTransforms fa ta ha
  obtain ⟨cb, rfl, hfb⟩ := mem_codingTransforms fb tb hb
  have h1 : (fa props).parts.headers.getAll contentEncoding = [ca.token] := by
    rw [hfa, hce]; rfl
  refine ⟨h1, ?_⟩
  rw [hfb]
  simp only [h1]
  simp [create_some_visible _ _ (token_visible ca)]

/-- Witness for C4: gzip then brotli on a `Content-Encoding`-free head
gives `"br, gzip"`. -/
theorem claim_c4_witness :
    (gzipFunc, ContentCoding.GZIP.token) ∈ codingTransforms ∧
    (brotliFunc, ContentCoding.BROTLI.token) ∈ codingTransforms ∧
    emptyCeProps.head.headers.getAll contentEncoding = [] ∧
    ((gzipFunc emptyCeProps).parts.headers.getAll contentEncoding
        = [ContentCoding.GZIP.token] ∧
      (brotliFunc chainedProps).parts.headers.getAll contentEncoding
        = [ContentCoding.BROTLI.token ++ commaSpace ++ ContentCoding.GZIP.token]) :=
  ⟨List.Mem.head _, List.Mem.tail _ (List.Mem.tail _ (List.Mem.head _)), by decide,
    claim_c4 gzipFunc brotliFunc ContentCoding.GZIP.token ContentCoding.BROTLI.token
      (List.Mem.head _) (List.Mem.tail _ (List.Mem.tail _ (List.Mem.head _)))
      emptyCeProps (by decide)⟩

/-- C5: with the parsed `Accept-Encoding: gzip;q=0.5, br;q=1.0`,
`auto()`'s compression function dispatches to the brotli transform, so
the response carries `br` as the newly applied (left-most)
`Content-Encoding` coding. -/
theorem claim_c5 (body : BodyStream) (head : Parts) :
    autoFunc ⟨body, head, some acceptGzipHalfBrFull⟩
      = brotliFunc ⟨body, head, some acceptGzipHalfBrFull⟩ ∧
    ∃ v, (autoFunc ⟨body, head, some acceptGzipHalfBrFull⟩).parts.headers.getAll
          contentEncoding = [v] ∧
      (v = ContentCoding.BROTLI.token ∨
        ∃ rest, v = ContentCoding.BROTLI.token ++ commaSpace ++ rest) := by
  have hp : acceptGzipHalfBrFull.prefered_encoding = some ContentCoding.BROTLI := by
    decide
  have hdispatch : autoFunc ⟨body, head, some acceptGzipHalfBrFull⟩
      = brotliFunc ⟨body, head, some acceptGzipHalfBrFull⟩ := by
    simp [autoFunc, hp]
  refine ⟨hdispatch, ?_⟩
  rw [hdispatch]
  exact ⟨_, brotliFunc_ce _, create_shape _ _⟩

/-- C8: each compression transform leaves every header other than
`Content-Encoding` and `Content-Length` untouched, and preserves the
head's status and version. -/
theorem claim_c8 (props : CompressionProps) (n : String)
    (h1 : n ≠ contentEncoding) (h2 : n ≠ contentLength) :
    ((gzipFunc props).parts.headers.getAll n = props.head.headers.getAll n ∧
      (gzipFunc props).parts.status = props.head.status ∧
      (gzipFunc props).parts.version = props.head.version) ∧
    ((deflateFunc props).parts.headers.getAll n = props.head.headers.getAll n ∧
      (deflateFunc props).parts.status = props.head.status ∧
      (deflateFunc props).parts.version = props.head.version) ∧
    ((brotliFunc props).parts.headers.getAll n = props.head.headers.getAll n ∧
      (brotliFunc props).parts.status = props.head.status ∧
      (brotliFunc props).parts.version = props.head.version) :=
  ⟨⟨gzipFunc_frame props n h1 h2, rfl, rfl⟩,
   ⟨deflateFunc_frame props n h1 h2, rfl, rfl⟩,
   ⟨brotliFunc_frame props n h1 h2, rfl, rfl⟩⟩

/-- Witness for C8 at a concrete head carrying an unrelated header. -/
theorem claim_c8_witness :
    "x-request-id" ≠ contentEncoding ∧ "x-request-id" ≠ contentLength ∧
    (gzipFunc passthroughProps).parts.headers.getAll "x-request-id"
      = passthroughProps.head.headers.getAll "x-request-id" ∧
    (deflateFunc passthroughProps).parts.headers.getAll "x-request-id"
      = passthroughProps.head.headers.getAll "x-request-id" ∧
    (brotliFunc passthroughProps).parts.headers.getAll "x-request-id"
      = passthroughProps.head.headers.getAll "x-request-id" :=
  ⟨by decide, by decide,
    (claim_c8 passthroughProps "x-request-id" (by decide) (by decide)).1.1,
    (claim_c8 passthroughProps "x-request-id" (by decide) (by decide)).2.1.1,
    (claim_c8 passthroughProps "x-request-id" (by decide) (by decide)).2.2.1⟩

/-- C10: when the existing `Content-Encoding` value is present but not
visible-ASCII text, the merge returns only the new coding's token: the
previous coding chain is silently discarded. -/
theorem claim_c10 (val : HeaderValue) (coding : ContentCoding)
    (h : headerValueToStr val = none) :
    create_encoding_header (some val) coding = coding.token := by
  simp [create_encoding_header, h]

/-- Witness for C10: byte 200 is a legal header-value byte (so the input
is a constructible `HeaderValue`) whose textual conversion fails. -/
theorem claim_c10_witness :
    ([200] : Bytes).all validValueByte = true ∧
    headerValueToStr [200] = none ∧
    create_encoding_header (some [200]) ContentCoding.GZIP
      = ContentCoding.GZIP.token :=
  ⟨by decide, by decide, claim_c10 [200] ContentCoding.GZIP (by decide)⟩

end Warp.Compression
